import Mathlib

/-!
Verification of the quota-aware YouTube channel-search engine.

This file gives a shallow embedding, in Lean 4, of the core logic of the
repository: the credential pool with quota accounting (storage module,
`getApiKeys` / `getValidApiKey` / `updateQuotaUsage`), the page-token cache
(`cleanupPageTokens` / `storePageToken` / `getPageToken`), the deterministic
email-extraction heuristic (`YouTubeService.extractEmail`), and the
multi-page search aggregation loop (`YouTubeService.searchChannels`).

Timestamps are modelled as natural numbers (milliseconds).  The Pacific-Time
calendar-date projection used by `shouldResetQuota` is abstracted as an
arbitrary function `ptDay : Nat → Nat` mapping a timestamp to its local
calendar day; all theorems are universally quantified over it.
-/

namespace Yt

/-- A stored credential record, as persisted in `api-keys.json`
(`ApiKey` in `src/types`): `{id, key, quotaUsed, lastUsed, isActive}`.
`quotaUsed` is a non-negative count of consumed quota units and `lastUsed`
a millisecond timestamp. -/
structure ApiKey where
  id : String
  key : String
  quotaUsed : Nat
  lastUsed : Nat
  isActive : Bool
deriving Repr, DecidableEq

/-- Embeds `shouldResetQuota` (storage module): the quota of a record is due
a reset exactly when its `lastUsed` falls on a different Pacific-Time
calendar date than `now`.  The date projection is the parameter `ptDay`. -/
def shouldResetQuota (ptDay : Nat → Nat) (lastUsed now : Nat) : Bool :=
  ptDay lastUsed != ptDay now

/-- Embeds the lazy-reset pass performed by `getApiKeys` on every read:
each record whose `lastUsed` is on an earlier Pacific day is rewritten to
`{quotaUsed: 0, isActive: true, lastUsed: now}`; other records are kept. -/
def getApiKeysUpdate (ptDay : Nat → Nat) (now : Nat) (keys : List ApiKey) : List ApiKey :=
  keys.map (fun k =>
    if shouldResetQuota ptDay k.lastUsed now then
      { k with quotaUsed := 0, isActive := true, lastUsed := now }
    else k)

/-- Embeds the write-back decision of `getApiKeys`: the store is rewritten
exactly when the reset pass changed some record (the source compares the
JSON serializations of the two lists). -/
def getApiKeysWrites (ptDay : Nat → Nat) (now : Nat) (keys : List ApiKey) : Bool :=
  decide (getApiKeysUpdate ptDay now keys ≠ keys)

/-- A record is usable by key selection iff it is active and strictly below
the 9900-unit safety threshold (`k.isActive && k.quotaUsed < 9900`). -/
def usableKey (k : ApiKey) : Bool :=
  k.isActive && k.quotaUsed < 9900

/-- Embeds `getValidApiKey`: read the keys (which applies the lazy daily
reset), return the key string of the first usable record in registration
order, or fail with the quota-exceeded error. -/
def getValidApiKey (ptDay : Nat → Nat) (now : Nat) (keys : List ApiKey) : Except String String :=
  match (getApiKeysUpdate ptDay now keys).find? usableKey with
  | some k => Except.ok k.key
  | none => Except.error "YouTube API quota exceeded. Please try again tomorrow or add a new API key in settings."

/-- The record update performed by `updateQuotaUsage` on the matching
record: add the units to `quotaUsed`, stamp `lastUsed = now`, and keep the
record active only while the new total is below the 9900 threshold. -/
def usageApplied (k : ApiKey) (units now : Nat) : ApiKey :=
  { k with
    quotaUsed := k.quotaUsed + units,
    lastUsed := now,
    isActive := decide (k.quotaUsed + units < 9900) }

/-- Applies `usageApplied` to the first record whose `key` field equals the
given key string (the source locates it with `findIndex`); all other
records are untouched, and an absent key leaves the list unchanged. -/
def applyUsage (now : Nat) (key : String) (units : Nat) : List ApiKey → List ApiKey
  | [] => []
  | k :: rest =>
    if k.key == key then usageApplied k units now :: rest
    else k :: applyUsage now key units rest

/-- Embeds `updateQuotaUsage` (accumulating variant of the storage module):
re-read the keys (applying the lazy daily reset), then add the units to the
matching record; if no record matches, the call is a silent no-op beyond
the read's own reset pass. -/
def updateQuotaUsage (ptDay : Nat → Nat) (now : Nat) (keys : List ApiKey)
    (key : String) (units : Nat) : List ApiKey :=
  applyUsage now key units (getApiKeysUpdate ptDay now keys)

/- ### Helper lemmas for the credential pool -/

theorem applyUsage_of_first (now : Nat) (key : String) (units : Nat)
    (l1 l2 : List ApiKey) (k : ApiKey)
    (hfirst : ∀ k2 ∈ l1, k2.key ≠ key) (hk : k.key = key) :
    applyUsage now key units (l1 ++ k :: l2) = l1 ++ usageApplied k units now :: l2 := by
  induction l1 with
  | nil =>
    simp [applyUsage, hk]
  | cons a l ih =>
    have ha : a.key ≠ key := hfirst a (by simp)
    simp only [List.cons_append, applyUsage]
    rw [if_neg (by simpa using ha)]
    simp only [List.append_eq]
    rw [ih (fun k2 hmem => hfirst k2 (by simp [hmem]))]

theorem applyUsage_of_absent (now : Nat) (key : String) (units : Nat)
    (l : List ApiKey) (habs : ∀ k ∈ l, k.key ≠ key) :
    applyUsage now key units l = l := by
  induction l with
  | nil => rfl
  | cons a l ih =>
    have ha : a.key ≠ key := habs a (by simp)
    simp only [applyUsage]
    rw [if_neg (by simpa using ha)]
    rw [ih (fun k2 hmem => habs k2 (by simp [hmem]))]

theorem find?_eq_some_split {α : Type} (p : α → Bool) (l : List α) (a : α)
    (h : l.find? p = some a) :
    ∃ l1 l2, l = l1 ++ a :: l2 ∧ p a = true ∧ ∀ x ∈ l1, p x = false := by
  induction l with
  | nil => simp [List.find?] at h
  | cons b l ih =>
    by_cases hb : p b = true
    · refine ⟨[], l, ?_, ?_, ?_⟩
      · simp only [List.find?, hb] at h
        simp [Option.some_inj.mp h]
      · simp only [List.find?, hb] at h
        rw [← Option.some_inj.mp h]; exact hb
      · intro x hx; simp at hx
    · have hb2 : p b = false := by
        cases hpb : p b
        · rfl
        · exact absurd hpb hb
      simp only [List.find?, hb2] at h
      obtain ⟨l1, l2, hsplit, hpa, hall⟩ := ih h
      refine ⟨b :: l1, l2, by simp [hsplit], hpa, ?_⟩
      intro x hx
      rcases List.mem_cons.mp hx with hxb | hxl
      · rw [hxb]; exact hb2
      · exact hall x hxl

theorem getApiKeysUpdate_preserves_key (ptDay : Nat → Nat) (now : Nat)
    (keys : List ApiKey) (k : ApiKey) (hk : k ∈ getApiKeysUpdate ptDay now keys) :
    ∃ k0 ∈ keys, k0.key = k.key := by
  obtain ⟨k0, hk0, heq⟩ := List.mem_map.mp hk
  refine ⟨k0, hk0, ?_⟩
  by_cases hs : shouldResetQuota ptDay k0.lastUsed now
  · rw [if_pos hs] at heq; rw [← heq]
  · rw [if_neg hs] at heq; rw [← heq]

/- ### Claim theorems: credential pool -/

/-- Claim C1: `updateQuotaUsage` accumulates: on the record list as read back
(after the lazy daily reset pass), the first record whose `key` matches ends
with `quotaUsed` equal to its previous `quotaUsed` plus the units (never
overwritten, never decreased), `lastUsed` set to the current time, and is
deactivated exactly when the new total reaches the 9900 safety threshold. -/
theorem updateQuotaUsage_accumulates
    (ptDay : Nat → Nat) (now units : Nat) (key : String)
    (keys l1 l2 : List ApiKey) (k : ApiKey)
    (hsplit : getApiKeysUpdate ptDay now keys = l1 ++ k :: l2)
    (hfirst : ∀ k2 ∈ l1, k2.key ≠ key) (hk : k.key = key) :
    updateQuotaUsage ptDay now keys key units = l1 ++ usageApplied k units now :: l2 ∧
    (usageApplied k units now).quotaUsed = k.quotaUsed + units ∧
    k.quotaUsed ≤ (usageApplied k units now).quotaUsed ∧
    (usageApplied k units now).lastUsed = now ∧
    (9900 ≤ k.quotaUsed + units → (usageApplied k units now).isActive = false) := by
  refine ⟨?_, rfl, Nat.le_add_right _ _, rfl, ?_⟩
  · rw [updateQuotaUsage, hsplit]
    exact applyUsage_of_first now key units l1 l2 k hfirst hk
  · intro h
    simp only [usageApplied]
    exact decide_eq_false (by omega)

/-- Witness for C1, instantiating Scenario A: a single same-day credential at
`quotaUsed = 9850` receives 105 units and ends at `quotaUsed = 9955`,
`isActive = false`, `lastUsed = now`. -/
theorem updateQuotaUsage_accumulates_witness :
    updateQuotaUsage (fun t => t / 86400000) 200
        [⟨"1", "KA", 9850, 100, true⟩] "KA" 105 =
      [⟨"1", "KA", 9955, 200, false⟩] ∧
    (⟨"1", "KA", 9955, 200, false⟩ : ApiKey).quotaUsed = 9850 + 105 := by
  have h := updateQuotaUsage_accumulates (fun t => t / 86400000) 200 105 "KA"
    [⟨"1", "KA", 9850, 100, true⟩] [] [] ⟨"1", "KA", 9850, 100, true⟩
    (by decide) (by intro k2 hk2; simp at hk2) rfl
  refine ⟨?_, rfl⟩
  rw [h.1]
  decide

/-- Claim C2: key selection (`getValidApiKey`) scans the records in
registration order after the lazy daily reset and returns the key of the
first usable record (`isActive && quotaUsed < 9900`), with every earlier
record unusable; when no record is usable even after the reset pass it
fails with the quota-exceeded error instead of returning a key. -/
theorem getValidApiKey_first_usable (ptDay : Nat → Nat) (now : Nat) (keys : List ApiKey) :
    (∀ s, getValidApiKey ptDay now keys = Except.ok s →
      ∃ l1 k l2, getApiKeysUpdate ptDay now keys = l1 ++ k :: l2 ∧
        usableKey k = true ∧ k.key = s ∧ ∀ k2 ∈ l1, usableKey k2 = false) ∧
    (∀ e, getValidApiKey ptDay now keys = Except.error e →
      ∀ k ∈ getApiKeysUpdate ptDay now keys, usableKey k = false) := by
  constructor
  · intro s hs
    unfold getValidApiKey at hs
    cases hfind : (getApiKeysUpdate ptDay now keys).find? usableKey with
    | none => rw [hfind] at hs; cases hs
    | some k =>
      rw [hfind] at hs
      obtain ⟨l1, l2, hsp, hus, hall⟩ := find?_eq_some_split usableKey _ k hfind
      exact ⟨l1, k, l2, hsp, hus, by simpa using hs, hall⟩
  · intro e he k hk
    unfold getValidApiKey at he
    cases hfind : (getApiKeysUpdate ptDay now keys).find? usableKey with
    | some k2 => rw [hfind] at he; cases he
    | none =>
      have := List.find?_eq_none.mp hfind k hk
      simpa using this

/-- Witness for C2: in a pool whose first record is inactive and whose
second is at the threshold, selection returns the third (first usable)
record's key. -/
theorem getValidApiKey_first_usable_witness :
    getValidApiKey (fun t => t / 86400000) 200
        [⟨"1", "A", 0, 100, false⟩, ⟨"2", "B", 9950, 100, true⟩, ⟨"3", "C", 10, 100, true⟩]
      = Except.ok "C" ∧
    ∃ l1 k l2,
      getApiKeysUpdate (fun t => t / 86400000) 200
          [⟨"1", "A", 0, 100, false⟩, ⟨"2", "B", 9950, 100, true⟩, ⟨"3", "C", 10, 100, true⟩]
        = l1 ++ k :: l2 ∧
      usableKey k = true ∧ k.key = "C" ∧ ∀ k2 ∈ l1, usableKey k2 = false := by
  refine ⟨rfl, ?_⟩
  exact (getValidApiKey_first_usable (fun t => t / 86400000) 200
    [⟨"1", "A", 0, 100, false⟩, ⟨"2", "B", 9950, 100, true⟩, ⟨"3", "C", 10, 100, true⟩]).1
    "C" rfl

/-- Claim C9: reading the credential list is not side-effect-free: the read
rewrites every stale record (one whose `lastUsed` is on an earlier Pacific
day) to `quotaUsed = 0`, `isActive = true`, and `lastUsed = now`, keeps
fresh records unchanged, and persists the store whenever some record was
stale. -/
theorem getApiKeys_rollover_mutates (ptDay : Nat → Nat) (now : Nat) (keys : List ApiKey) :
    (∀ (i : Nat) (k : ApiKey), keys[i]? = some k →
      (shouldResetQuota ptDay k.lastUsed now = true →
        (getApiKeysUpdate ptDay now keys)[i]? =
          some { k with quotaUsed := 0, isActive := true, lastUsed := now }) ∧
      (shouldResetQuota ptDay k.lastUsed now = false →
        (getApiKeysUpdate ptDay now keys)[i]? = some k)) ∧
    ((∃ k ∈ keys, shouldResetQuota ptDay k.lastUsed now = true) →
      getApiKeysWrites ptDay now keys = true) := by
  constructor
  · intro i k hik
    constructor
    · intro hstale
      unfold getApiKeysUpdate
      rw [List.getElem?_map, hik]
      simp [hstale]
    · intro hfresh
      unfold getApiKeysUpdate
      rw [List.getElem?_map, hik]
      simp [hfresh]
  · rintro ⟨k, hmem, hstale⟩
    unfold getApiKeysWrites
    refine decide_eq_true ?_
    intro habs
    obtain ⟨i, hik⟩ := List.getElem?_of_mem hmem
    have h1 : (getApiKeysUpdate ptDay now keys)[i]? =
        some { k with quotaUsed := 0, isActive := true, lastUsed := now } := by
      unfold getApiKeysUpdate
      rw [List.getElem?_map, hik]
      simp [hstale]
    rw [habs, hik] at h1
    have h2 : k.lastUsed = now := by
      have := Option.some_inj.mp h1
      rw [this]
    have h3 : ptDay k.lastUsed ≠ ptDay now := by
      simpa [shouldResetQuota] using hstale
    exact h3 (by rw [h2])

/-- Witness for C9: a pool with one record last used on Pacific day 0, read
on day 5 — the record is reset and the store is rewritten. -/
theorem getApiKeys_rollover_mutates_witness :
    (getApiKeysUpdate (fun t => t / 1000) 5000 [⟨"1", "A", 500, 100, true⟩])[0]? =
      some ⟨"1", "A", 0, 5000, true⟩ ∧
    getApiKeysWrites (fun t => t / 1000) 5000 [⟨"1", "A", 500, 100, true⟩] = true := by
  constructor
  · exact ((getApiKeys_rollover_mutates (fun t => t / 1000) 5000
      [⟨"1", "A", 500, 100, true⟩]).1 0 ⟨"1", "A", 500, 100, true⟩ rfl).1 rfl
  · exact (getApiKeys_rollover_mutates (fun t => t / 1000) 5000
      [⟨"1", "A", 500, 100, true⟩]).2 ⟨⟨"1", "A", 500, 100, true⟩, by simp, rfl⟩

/-- Counterexample to C10 as stated: calling `updateQuotaUsage` with an
unknown key is not always free of record changes — the embedded
`getApiKeys` read still applies the lazy daily reset, so a stale record has
its `quotaUsed`, `isActive` and `lastUsed` rewritten. -/
theorem updateQuotaUsage_unknown_key_not_pure :
    updateQuotaUsage (fun t => t / 1000) 5000 [⟨"1", "A", 500, 100, true⟩] "ZZZ" 7 ≠
      [⟨"1", "A", 500, 100, true⟩] := by
  decide

/-- Claim C10 (amended): calling `updateQuotaUsage` with a key matching no
stored credential raises no error and records no usage: the result is
exactly the list produced by the read's lazy daily reset pass, and when no
record is stale the call is a complete no-op — the units are silently lost
from the ledger. -/
theorem updateQuotaUsage_unknown_key_noop (ptDay : Nat → Nat) (now : Nat)
    (keys : List ApiKey) (key : String) (units : Nat)
    (habs : ∀ k ∈ keys, k.key ≠ key) :
    updateQuotaUsage ptDay now keys key units = getApiKeysUpdate ptDay now keys ∧
    ((∀ k ∈ keys, shouldResetQuota ptDay k.lastUsed now = false) →
      updateQuotaUsage ptDay now keys key units = keys) := by
  have hmain : updateQuotaUsage ptDay now keys key units = getApiKeysUpdate ptDay now keys := by
    unfold updateQuotaUsage
    refine applyUsage_of_absent now key units _ ?_
    intro k hk
    obtain ⟨k0, hk0, hkey⟩ := getApiKeysUpdate_preserves_key ptDay now keys k hk
    rw [← hkey]
    exact habs k0 hk0
  refine ⟨hmain, ?_⟩
  intro hfresh
  rw [hmain]
  unfold getApiKeysUpdate
  have : keys.map (fun k =>
      if shouldResetQuota ptDay k.lastUsed now then
        { k with quotaUsed := 0, isActive := true, lastUsed := now }
      else k) = keys.map id := by
    refine List.map_congr_left ?_
    intro k hk
    rw [if_neg (by simp [hfresh k hk])]
    rfl
  rw [this, List.map_id]

/-- Witness for C10: with one same-day record and an unknown key, the call
changes nothing. -/
theorem updateQuotaUsage_unknown_key_noop_witness :
    updateQuotaUsage (fun t => t / 1000) 200 [⟨"1", "A", 500, 100, true⟩] "ZZZ" 7 =
      [⟨"1", "A", 500, 100, true⟩] := by
  exact (updateQuotaUsage_unknown_key_noop (fun t => t / 1000) 200
    [⟨"1", "A", 500, 100, true⟩] "ZZZ" 7 (by decide)).2 (by decide)

/- ### Page-token cache -/

/-- A continuation-token cache entry as persisted in `page-tokens.json`:
`{key, page, token, timestamp}` where `key` is the search fingerprint and
`timestamp` the creation time in milliseconds. -/
structure PageTokenEntry where
  key : String
  page : Nat
  token : String
  timestamp : Nat
deriving Repr, DecidableEq

/-- One hour in milliseconds (`60 * 60 * 1000` in the source). -/
def oneHourMs : Nat := 60 * 60 * 1000

/-- Embeds `cleanupPageTokens`: drop every entry except those with
`now - timestamp < oneHour` (entries at least one hour old are removed;
the truncated `Nat` subtraction matches the JS comparison for the stored
timestamps, which never exceed `now` by more than the clock itself). -/
def cleanupPageTokens (now : Nat) (tokens : List PageTokenEntry) : List PageTokenEntry :=
  tokens.filter (fun t => now - t.timestamp < oneHourMs)

/-- Embeds `storePageToken`: housekeeping first, then replace any entry for
the same `(key, page)` pair and append the fresh entry stamped `now`. -/
def storePageToken (now : Nat) (tokens : List PageTokenEntry)
    (searchKey : String) (page : Nat) (token : String) : List PageTokenEntry :=
  let ts := cleanupPageTokens now tokens
  ts.filter (fun t => !(t.key == searchKey && t.page == page)) ++
    [⟨searchKey, page, token, now⟩]

/-- Embeds `getPageToken`: housekeeping first, then look up the entry for
`(key, page)`; returns the found token (if any) together with the cache
state left behind by the housekeeping write. -/
def getPageToken (now : Nat) (tokens : List PageTokenEntry)
    (searchKey : String) (page : Nat) : Option String × List PageTokenEntry :=
  let ts := cleanupPageTokens now tokens
  (match ts.find? (fun t => t.key == searchKey && t.page == page) with
   | some e => some e.token
   | none => none,
   ts)

/-- Claim C8: for every cache state and every `(fingerprint, page)`,
`getPageToken` never serves an entry created an hour or more before the
call: any returned token comes from an entry that survived the housekeeping
pass, matches the requested key and page, and satisfies
`now - timestamp < 1 hour` — in particular it is never older than one hour,
whatever sequence of `put` calls produced the state. -/
theorem getPageToken_never_stale (now : Nat) (tokens : List PageTokenEntry)
    (searchKey : String) (page : Nat) (tok : String)
    (h : (getPageToken now tokens searchKey page).1 = some tok) :
    ∃ e ∈ cleanupPageTokens now tokens,
      e.key = searchKey ∧ e.page = page ∧ e.token = tok ∧
      now - e.timestamp < oneHourMs := by
  unfold getPageToken at h
  simp only at h
  cases hfind : (cleanupPageTokens now tokens).find?
      (fun t => t.key == searchKey && t.page == page) with
  | none => rw [hfind] at h; cases h
  | some e =>
    rw [hfind] at h
    have hmem : e ∈ cleanupPageTokens now tokens := List.mem_of_find?_eq_some hfind
    have hpred := List.find?_some hfind
    have hkey : e.key = searchKey := by
      have := (Bool.and_eq_true _ _).mp hpred
      exact beq_iff_eq.mp this.1
    have hpage : e.page = page := by
      have := (Bool.and_eq_true _ _).mp hpred
      exact beq_iff_eq.mp this.2
    have hage : now - e.timestamp < oneHourMs := by
      have := (List.mem_filter.mp hmem).2
      simpa using this
    exact ⟨e, hmem, hkey, hpage, Option.some_inj.mp h, hage⟩

/-- Witness for C8: a 999.5-second-old entry is served, and the theorem
locates it among the live entries. -/
theorem getPageToken_never_stale_witness :
    (getPageToken 1000000 [⟨"K", 2, "TOK", 500⟩] "K" 2).1 = some "TOK" ∧
    ∃ e ∈ cleanupPageTokens 1000000 [⟨"K", 2, "TOK", 500⟩],
      e.key = "K" ∧ e.page = 2 ∧ e.token = "TOK" ∧
      e.timestamp + oneHourMs > 1000000 := by
  refine ⟨rfl, ?_⟩
  obtain ⟨e, hmem, hkey, hpage, htok, hage⟩ :=
    getPageToken_never_stale 1000000 [⟨"K", 2, "TOK", 500⟩] "K" 2 "TOK" rfl
  exact ⟨e, hmem, hkey, hpage, htok, by omega⟩

/- ### Email extraction

`YouTubeService.extractEmail` first returns a branding email containing `@`
trimmed; otherwise it normalizes the description (newlines to spaces,
whitespace runs collapsed, lowercased, trimmed) and runs an ordered cascade
of six regular expressions, cleaning and validating each hit, with one
last-resort scan for a bare email at the end.

The JavaScript regexes are embedded as an abstract syntax tree `RE` and
executed by a continuation-passing backtracking matcher with the same
preference order as the JS engine: alternatives left to right, greedy
repetition longest-first, lazy repetition shortest-first, leftmost match
wins.  All repetition operators in the source patterns apply to
single-character classes, so repetition is modelled by the dedicated
`many` / `manyLazy` nodes and every function is structurally recursive. -/

/-- `\w`: ASCII letters, digits and underscore. -/
def isWordChar (c : Char) : Bool :=
  c.isAlphanum || c == '_'

/-- Regular-expression ASTs for the patterns used by `extractEmail`.
`cls` is a single-character class, `group` the (single) capture group of a
pattern, `wb` the `\b` word boundary, `many p` the greedy `p*` and
`manyLazy p` the lazy `p*?` over a character class `p`. -/
inductive RE where
  | eps
  | cls (p : Char → Bool)
  | seq (a b : RE)
  | alt (a b : RE)
  | group (r : RE)
  | wb
  | many (p : Char → Bool)
  | manyLazy (p : Char → Bool)

/-- The type of matcher continuations: they receive the character before
the current position, the unconsumed suffix, and the capture recorded so
far, and decide whether this way of matching is accepted. -/
abbrev MatchK :=
  Option Char → List Char → Option (List Char) → Option (List Char × Option (List Char))

/-- Greedy repetition of a character class: consume as many characters as
possible, backtracking to shorter repetitions (the continuation is invoked
at the longest repetition first). -/
def manyGo (p : Char → Bool) : Option Char → List Char → Option (List Char) → MatchK →
    Option (List Char × Option (List Char))
  | prev, [], cap, k => k prev [] cap
  | prev, c :: rest, cap, k =>
    if p c then
      (manyGo p (some c) rest cap k).orElse (fun _ => k prev (c :: rest) cap)
    else k prev (c :: rest) cap

/-- Lazy repetition of a character class: the continuation is invoked at
the shortest repetition first, consuming further characters only on
failure. -/
def manyLazyGo (p : Char → Bool) : Option Char → List Char → Option (List Char) → MatchK →
    Option (List Char × Option (List Char))
  | prev, [], cap, k => k prev [] cap
  | prev, c :: rest, cap, k =>
    (k prev (c :: rest) cap).orElse (fun _ =>
      if p c then manyLazyGo p (some c) rest cap k else none)

/-- `\b`: the previous and next characters disagree on word-char-ness
(start and end of input count as non-word). -/
def boundaryOk (prev : Option Char) (s : List Char) : Bool :=
  (match prev with | some c => isWordChar c | none => false) !=
  (match s with | c :: _ => isWordChar c | [] => false)

/-- The backtracking matcher: runs `re` at the head of `s` (with `prev` the
character before the current position and `cap` the capture recorded so
far) and calls the continuation `k` on every way of matching, in the JS
preference order, returning the first result the continuation accepts. -/
def mrun : RE → Option Char → List Char → Option (List Char) → MatchK →
    Option (List Char × Option (List Char))
  | .eps, prev, s, cap, k => k prev s cap
  | .cls p, _, s, cap, k =>
    match s with
    | [] => none
    | c :: rest => if p c then k (some c) rest cap else none
  | .seq a b, prev, s, cap, k =>
    mrun a prev s cap (fun p2 s2 c2 => mrun b p2 s2 c2 k)
  | .alt a b, prev, s, cap, k =>
    (mrun a prev s cap k).orElse (fun _ => mrun b prev s cap k)
  | .group r, prev, s, cap, k =>
    mrun r prev s cap (fun p2 s2 _ => k p2 s2 (some (s.take (s.length - s2.length))))
  | .wb, prev, s, cap, k => if boundaryOk prev s then k prev s cap else none
  | .many p, prev, s, cap, k => manyGo p prev s cap k
  | .manyLazy p, prev, s, cap, k => manyLazyGo p prev s cap k

/-- Leftmost match: try the pattern at each position in turn; on success
return the consumed characters and the capture. -/
def searchFrom (re : RE) : Option Char → List Char → Option (List Char × Option (List Char))
  | prev, s =>
    match mrun re prev s none (fun _ s2 cap => some (s2, cap)) with
    | some (s2, cap) => some (s.take (s.length - s2.length), cap)
    | none =>
      match s with
      | [] => none
      | c :: rest => searchFrom re (some c) rest

/-- `String.match(re)` for an unanchored pattern: the whole text of the
leftmost match (`matches[0]`) and the capture (`matches[1]`). -/
def reFirstMatch (re : RE) (s : String) : Option (String × Option String) :=
  match searchFrom re none s.data with
  | some (m, cap) => some (String.mk m, cap.map String.mk)
  | none => none

/-- Anchored match of the whole string (`^pattern$`). -/
def reFullMatch (re : RE) (s : String) : Bool :=
  (mrun re none s.data none (fun _ s2 _ =>
    if s2.isEmpty then some (s2, none) else none)).isSome

/-- A single literal character. -/
def reChar (c : Char) : RE :=
  RE.cls (fun d => d == c)

/-- A literal string. -/
def reLit (str : String) : RE :=
  str.data.foldr (fun c acc => RE.seq (reChar c) acc) RE.eps

/-- Alternation over a list, tried left to right. -/
def reAlts : List RE → RE
  | [] => RE.cls (fun _ => false)
  | [r] => r
  | r :: rest => RE.alt r (reAlts rest)

/-- `p+` over a character class. -/
def clsPlus (p : Char → Bool) : RE :=
  RE.seq (RE.cls p) (RE.many p)

/-- `[\w.-]` — the character class of the email local and domain parts. -/
def wdc (c : Char) : Bool :=
  isWordChar c || c == '.' || c == '-'

/-- `\s*`. -/
def wsStar : RE := RE.many Char.isWhitespace

/-- `\s+`. -/
def wsPlus : RE := clsPlus Char.isWhitespace

/-- `[\w.-]+@[\w.-]+\.\w+` — the basic email pattern, also used for the
final validation (anchored) and the last-resort scan. -/
def emailCore : RE :=
  RE.seq (clsPlus wdc) (RE.seq (reChar '@')
    (RE.seq (clsPlus wdc) (RE.seq (reChar '.') (clsPlus isWordChar))))

/-- Pattern 2 of the cascade: a contact label, a separator
(`:`/`at`/`[at]`/`(at)`/`@`/whitespace), then a captured email. -/
def labeledEmailRE : RE :=
  RE.seq (reAlts [reLit "email", reLit "contact", reLit "business",
      reLit "enquiries", reLit "inquiries", reLit "collaborate", reLit "reach",
      reLit "mail", reLit "contact me", reLit "get in touch", reLit "write to",
      reLit "drop a mail"])
    (RE.seq (RE.seq wsStar (RE.seq (reAlts [reLit ":", reLit "at", reLit "[at]",
        reLit "(at)", reLit "@", wsPlus]) wsStar))
      (RE.group emailCore))

/-- Pattern 3 of the cascade: obfuscated emails written with
`[at]`/`(at)`/`[dot]`/`(dot)` tokens. -/
def obfuscatedEmailRE : RE :=
  RE.seq (clsPlus wdc)
    (RE.seq (RE.seq wsStar (RE.seq (reAlts [reLit "[at]", reLit "(at)", reLit "@",
        reLit "[dot]", reLit "(dot)", reLit "."]) (RE.seq wsStar (clsPlus wdc))))
      (RE.seq wsStar (RE.seq (reAlts [reLit "[dot]", reLit "(dot)", reLit "."])
        (RE.seq wsStar (clsPlus isWordChar)))))

/-- Pattern 4 of the cascade: a business-contact phrase followed (lazily)
by a captured email. -/
def businessEmailRE : RE :=
  RE.seq (reAlts [RE.seq (reLit "for") (RE.seq wsPlus (reLit "business")),
      RE.seq (reLit "business") (RE.seq wsPlus (reLit "inquiries")),
      RE.seq RE.wb (RE.seq (reLit "biz") RE.wb),
      reLit "collaboration", reLit "partnership"])
    (RE.seq (RE.manyLazy (fun c => c != '\n')) (RE.group emailCore))

/-- Pattern 5 of the cascade: an address on a common consumer-mail
domain. -/
def consumerDomainEmailRE : RE :=
  RE.seq (clsPlus wdc) (RE.seq (reChar '@')
    (RE.seq (reAlts [reLit "gmail", reLit "yahoo", reLit "outlook",
        reLit "hotmail", reLit "business", reLit "proton", reLit "icloud",
        reLit "me", reLit "aol", reLit "mail"])
      (RE.seq (reChar '.') (clsPlus isWordChar))))

/-- Pattern 6 of the cascade: an email wrapped in brackets or
parentheses. -/
def wrappedEmailRE : RE :=
  RE.seq (RE.cls (fun c => c == '[' || c == '('))
    (RE.seq wsStar (RE.seq (RE.group emailCore)
      (RE.seq wsStar (RE.cls (fun c => c == ']' || c == ')')))))

/-- The ordered pattern cascade of `extractEmail`. -/
def emailPatterns : List RE :=
  [emailCore, labeledEmailRE, obfuscatedEmailRE, businessEmailRE,
   consumerDomainEmailRE, wrappedEmailRE]

/-- Collapse runs of spaces to a single space (after every whitespace
character has been mapped to a space). -/
def squeezeSpaces : List Char → List Char
  | [] => []
  | [c] => [c]
  | a :: b :: rest =>
    if a == ' ' && b == ' ' then squeezeSpaces (b :: rest)
    else a :: squeezeSpaces (b :: rest)

/-- `String.prototype.trim()`, modelled on the character list (the built-in
`String.trim` is compiled code the kernel cannot evaluate). -/
def jsTrim (s : String) : String :=
  String.mk (((s.data.dropWhile Char.isWhitespace).reverse.dropWhile
    Char.isWhitespace).reverse)

/-- `String.prototype.toLowerCase()`, modelled characterwise. -/
def jsToLower (s : String) : String :=
  String.mk (s.data.map Char.toLower)

/-- `String.prototype.includes(c)` for a single character. -/
def jsContains (s : String) (c : Char) : Bool :=
  s.data.any (fun d => d == c)

/-- One fuel-indexed step list of `replace(/pat/g, rep)`; the fuel is the
input length, which suffices for the non-empty patterns used here. -/
def replaceAllGo (pat rep : List Char) : Nat → List Char → List Char
  | 0, l => l
  | _, [] => []
  | fuel + 1, c :: rest =>
    if pat.isPrefixOf (c :: rest) then
      rep ++ replaceAllGo pat rep fuel ((c :: rest).drop pat.length)
    else c :: replaceAllGo pat rep fuel rest

/-- Global string replacement (`replace(/pat/g, rep)`) on character
lists. -/
def replaceAll (pat rep l : List Char) : List Char :=
  replaceAllGo pat rep l.length l

/-- The description normalization of `extractEmail`: newlines to spaces,
whitespace runs collapsed to one space, lowercased, trimmed. -/
def cleanDescription (d : String) : String :=
  jsTrim (jsToLower (String.mk (squeezeSpaces
    ((d.data.map (fun c => if c == '\n' then ' ' else c)).map
      (fun c => if c.isWhitespace then ' ' else c)))))

/-- Remove every whitespace character (`replace(/\s+/g, "")`). -/
def stripAllWs (s : String) : String :=
  String.mk (s.data.filter (fun c => !c.isWhitespace))

/-- The hit normalization of `extractEmail`: strip whitespace, replace the
`[at]`/`(at)`/`[dot]`/`(dot)` tokens, drop remaining brackets and
parentheses, lowercase and trim. -/
def cleanupEmail (e : String) : String :=
  jsTrim (jsToLower (String.mk
    ((replaceAll "(dot)".data ".".data
      (replaceAll "[dot]".data ".".data
        (replaceAll "(at)".data "@".data
          (replaceAll "[at]".data "@".data (stripAllWs e).data)))).filter
      (fun c => !(c == '[' || c == ']' || c == '(' || c == ')')))))

/-- The final shape check `^[\w.-]+@[\w.-]+\.\w+$`. -/
def validEmailShape (s : String) : Bool :=
  reFullMatch emailCore s

/-- `matches[1] || matches[0]`: the capture if present and non-empty,
otherwise the whole match. -/
def chosenMatch (whole : String) (cap : Option String) : String :=
  match cap with
  | some g => if g.data.isEmpty then whole else g
  | none => whole

/-- Walk the pattern cascade in order: the first hit whose cleaned form
passes the `@` / `.` / shape validation wins; a hit failing validation
falls through to the next pattern. -/
def extractFromPatterns : List RE → String → Option String
  | [], _ => none
  | re :: rest, cd =>
    match reFirstMatch re cd with
    | none => extractFromPatterns rest cd
    | some (whole, cap) =>
      let cleaned := cleanupEmail (chosenMatch whole cap)
      if jsContains cleaned '@' && jsContains cleaned '.' && validEmailShape cleaned
      then some cleaned
      else extractFromPatterns rest cd

/-- The last-resort scan: the first bare-email match, whitespace-stripped,
lowercased and shape-checked. -/
def lastResortScan (cd : String) : Option String :=
  match reFirstMatch emailCore cd with
  | some (whole, _) =>
    let cleaned := jsTrim (jsToLower (stripAllWs whole))
    if validEmailShape cleaned then some cleaned else none
  | none => none

/-- The description arm of `extractEmail`: normalize, run the cascade,
fall back to the last-resort scan. -/
def extractFromDescription (d : String) : Option String :=
  match extractFromPatterns emailPatterns (cleanDescription d) with
  | some e => some e
  | none => lastResortScan (cleanDescription d)

/-- Embeds `YouTubeService.extractEmail`: a branding email containing `@`
is returned trimmed; otherwise the description is scanned. -/
def extractEmail (description : String) (brandingEmail : Option String) : Option String :=
  match brandingEmail with
  | some b =>
    if jsContains b '@' then some (jsTrim b)
    else extractFromDescription description
  | none => extractFromDescription description

/-- Claim C7: `extractEmail` is a pure function (it is modelled as one, so
identical inputs trivially yield identical outputs) following the
first-match-wins policy: whenever the branding email contains `@` it is
returned trimmed, whatever the description says; and with no branding email
the obfuscated description `"contact [at] example [dot] com"` normalizes to
exactly `"contact@example.com"`. -/
theorem extractEmail_policy :
    (∀ d b, jsContains b '@' = true → extractEmail d (some b) = some (jsTrim b)) ∧
    extractEmail "contact [at] example [dot] com" none = some "contact@example.com" := by
  constructor
  · intro d b hb
    simp [extractEmail, hb]
  · decide

/-- Witness for C7: the branding-first clause applied at a concrete input
with a noisy description. -/
theorem extractEmail_policy_witness :
    extractEmail "ignore me, mail us at other@example.org"
        (some " First@Example.com ") = some "First@Example.com" := by
  exact extractEmail_policy.1 "ignore me, mail us at other@example.org"
    " First@Example.com " (by decide)

/- ### Search aggregation

`YouTubeService.searchChannels` selects a credential, resolves an optional
cached continuation token for `page > 1`, then loops up to `maxAttempts`
times: one `search.list` call (100 units), one `channels.list` call
(1 unit per id), the filter pipeline, and an append to the accumulator.
Provider calls are modelled by a `Provider` record of functions that either
return structured data or fail; a search item is modelled directly by its
channel id (the source extracts `snippet.channelId` from each item). -/

/-- The detail record fields consumed by the filter pipeline.
`subscriberCount` is `none` when `statistics.subscriberCount` is missing
(such records are rejected outright); the two language fields are `none`
when absent or empty. -/
structure Channel where
  id : String
  subscriberCount : Option Nat
  defaultLanguage : Option String
  brandingLanguage : Option String
  brandingEmail : Option String
  description : String
deriving Repr, DecidableEq

/-- One `search.list` response: the channel ids of the items, the optional
continuation token (`none` for absent or empty) and the result estimate. -/
structure SearchPage where
  items : List String
  nextPageToken : Option String
  totalResults : Nat
deriving Repr, DecidableEq

/-- The external provider: `search` takes the current continuation token,
`details` the collected channel ids; either call may fail. -/
structure Provider where
  search : Option String → Except Unit SearchPage
  details : List String → Except Unit (List Channel)

/-- The search filters consumed by the aggregation loop.  Numeric fields
use `0` for the JS falsy "unset" value and `language = ""` for an unset
language. -/
structure Filters where
  query : String
  country : String
  language : String
  category : String
  minSubscribers : Nat
  hasEmail : Bool
  maxResults : Nat
  page : Nat
deriving Repr, DecidableEq

/-- Embeds `generateSearchKey`: a deterministic fingerprint of the four
pagination-relevant filter fields (`query`, `country`, `language`,
`category`); the source base64-encodes their JSON object, modelled here as
a separator-joined concatenation. -/
def generateSearchKey (f : Filters) : String :=
  f.query ++ "|" ++ f.country ++ "|" ++ f.language ++ "|" ++ f.category

/-- `snippet.defaultLanguage || brandingSettings.channel.defaultLanguage`. -/
def channelLanguage (c : Channel) : Option String :=
  match c.defaultLanguage with
  | some l => some l
  | none => c.brandingLanguage

/-- The filter pipeline applied to each detail record, short-circuiting in
source order: missing subscriber statistics reject; the subscriber lower
bound applies only when set; a non-"all" language filter rejects only when
the record carries a different language (absence is not a rejection); then
the exclusion list; then, under `hasEmail`, extractability of an email. -/
def passesFilters (f : Filters) (excluded : List String) (c : Channel) : Bool :=
  match c.subscriberCount with
  | none => false
  | some sub =>
    if f.minSubscribers != 0 && sub < f.minSubscribers then false
    else if f.language != "" && f.language != "all" &&
        (match channelLanguage c with
         | some l => l != f.language
         | none => false) then false
    else if excluded.contains c.id then false
    else if f.hasEmail && (extractEmail c.description c.brandingEmail).isNone then false
    else true

/-- The state threaded through the aggregation loop: the accumulator, the
current continuation token, the running quota total, the latest result
estimate, and the attempt counter; `searches` and `detailIds` instrument
the completed provider calls (they appear in no branch condition and exist
only so theorems can speak about the number of pages fetched and the ids
billed). -/
structure LoopState where
  acc : List Channel
  tok : Option String
  quota : Nat
  total : Nat
  searches : Nat
  detailIds : Nat
  attempts : Nat
deriving Repr, DecidableEq

/-- Outcome of one loop iteration: normal exit, continue to the next page,
or a provider failure carrying the state at the throw. -/
inductive StepRes where
  | done (st : LoopState)
  | next (st : LoopState)
  | fail (st : LoopState)
deriving Repr, DecidableEq

/-- One iteration of the `while` loop of `searchChannels`: a search call
(100 units, counted after the call returns), stop on an empty page; a
details call (1 unit per id, counted after it returns), stop on an empty
detail list; filter, append; continue — advancing the token and the
attempt counter — only while the accumulator is short of `desired` and the
provider supplied a next token. -/
def searchStep (prov : Provider) (f : Filters) (excluded : List String)
    (desired : Nat) (st : LoopState) : StepRes :=
  match prov.search st.tok with
  | .error _ => .fail st
  | .ok page =>
    if page.items.isEmpty then
      .done { st with quota := st.quota + 100, total := page.totalResults,
                      searches := st.searches + 1 }
    else
      match prov.details page.items with
      | .error _ =>
        .fail { st with quota := st.quota + 100, total := page.totalResults,
                        searches := st.searches + 1 }
      | .ok chans =>
        if chans.isEmpty then
          .done { st with quota := st.quota + 100 + page.items.length,
                          total := page.totalResults, searches := st.searches + 1,
                          detailIds := st.detailIds + page.items.length }
        else
          if (st.acc ++ chans.filter (passesFilters f excluded)).length < desired &&
              page.nextPageToken.isSome then
            .next { st with acc := st.acc ++ chans.filter (passesFilters f excluded),
                            tok := page.nextPageToken,
                            quota := st.quota + 100 + page.items.length,
                            total := page.totalResults, searches := st.searches + 1,
                            detailIds := st.detailIds + page.items.length,
                            attempts := st.attempts + 1 }
          else
            .done { st with acc := st.acc ++ chans.filter (passesFilters f excluded),
                            quota := st.quota + 100 + page.items.length,
                            total := page.totalResults, searches := st.searches + 1,
                            detailIds := st.detailIds + page.items.length }

/-- The attempt bound of the aggregation loop (`const maxAttempts = 3`). -/
def maxAttempts : Nat := 3

/-- The `while (allChannels.length < desiredResults && attempts < maxAttempts)`
loop.  The fuel argument only serves Lean's termination; `searchChannels`
passes `maxAttempts + 1`, which the attempt counter in the guard keeps from
ever being exhausted. -/
def runLoop (prov : Provider) (f : Filters) (excluded : List String)
    (desired : Nat) : Nat → LoopState → Except LoopState LoopState
  | 0, st => .ok st
  | fuel + 1, st =>
    if st.acc.length < desired && st.attempts < maxAttempts then
      match searchStep prov f excluded desired st with
      | .fail st2 => .error st2
      | .done st2 => .ok st2
      | .next st2 => runLoop prov f excluded desired fuel st2
    else .ok st

/-- The loop entry state: empty accumulator, the resolved continuation
token, zero quota and zero attempts. -/
def initLoopState (tok : Option String) : LoopState :=
  ⟨[], tok, 0, 0, 0, 0, 0⟩

/-- `filters.maxResults || 10`. -/
def desiredCount (f : Filters) : Nat :=
  if f.maxResults == 0 then 10 else f.maxResults

/-- The persisted state visible to `searchChannels`: the credential store,
the page-token cache, and the exclusion list. -/
structure StoreState where
  keys : List ApiKey
  pageTokens : List PageTokenEntry
  excluded : List String
deriving Repr, DecidableEq

/-- The successful result of `searchChannels`: the truncated channel list
and the pagination block. -/
structure SearchOk where
  channels : List Channel
  currentPage : Nat
  totalResults : Nat
  hasMore : Bool
  quotaUsed : Nat
deriving Repr, DecidableEq

/-- The failures of `searchChannels`: no usable credential (the selection
error propagates unchanged), or a provider failure rethrown after the
consumed quota was recorded. -/
inductive SearchErr where
  | quotaExhausted (msg : String)
  | providerError
deriving Repr, DecidableEq

/-- Embeds `YouTubeService.searchChannels`: select a credential (a
selection failure propagates), resolve a cached continuation token when `page > 1`, run the
aggregation loop, record the consumed quota against the selected key on
both the success and the failure path, truncate to the desired count and
compute the pagination block.  The returned `StoreState` is the persisted
state after the call. -/
def searchChannels (ptDay : Nat → Nat) (now : Nat) (prov : Provider)
    (f : Filters) (st : StoreState) : Except SearchErr SearchOk × StoreState :=
  match getValidApiKey ptDay now st.keys with
  | .error e =>
    (.error (.quotaExhausted e), { st with keys := getApiKeysUpdate ptDay now st.keys })
  | .ok apiKey =>
    let keys1 := getApiKeysUpdate ptDay now st.keys
    let tokLookup :=
      if f.page > 1 then getPageToken now st.pageTokens (generateSearchKey f) f.page
      else (none, st.pageTokens)
    let desired := desiredCount f
    match runLoop prov f st.excluded desired (maxAttempts + 1) (initLoopState tokLookup.1) with
    | .error lst =>
      (.error .providerError,
       { keys := updateQuotaUsage ptDay now keys1 apiKey lst.quota,
         pageTokens := tokLookup.2, excluded := st.excluded })
    | .ok lst =>
      let channels := lst.acc.take desired
      (.ok { channels := channels, currentPage := f.page,
             totalResults := min (min lst.total 500) desired,
             hasMore := lst.tok.isSome && channels.length == desired,
             quotaUsed := lst.quota },
       { keys := updateQuotaUsage ptDay now keys1 apiKey lst.quota,
         pageTokens := tokLookup.2,
         excluded := st.excluded })

/-- Projects the accumulator out of a step outcome. -/
def stepAcc : StepRes → List Channel
  | .done st => st.acc
  | .next st => st.acc
  | .fail st => st.acc

/-- Projects the final loop state out of either loop outcome. -/
def loopState : Except LoopState LoopState → LoopState
  | .ok st => st
  | .error st => st

/-- The number of completed `search.list` calls of a finished loop. -/
def loopSearches (e : Except LoopState LoopState) : Nat :=
  (loopState e).searches

/-- The channel ids of a search result (empty on failure). -/
def resultIds (x : Except SearchErr SearchOk) : List String :=
  match x with
  | .ok r => r.channels.map (fun c => c.id)
  | .error _ => []

/-- A successful search result, if any. -/
def okResult : Except SearchErr SearchOk → Option SearchOk
  | .ok r => some r
  | .error _ => none

/- ### Helper lemmas for the aggregation loop -/

theorem searchStep_next_spec (prov : Provider) (f : Filters) (excluded : List String)
    (desired : Nat) (st st2 : LoopState)
    (h : searchStep prov f excluded desired st = StepRes.next st2) :
    st2.searches = st.searches + 1 ∧ st2.attempts = st.attempts + 1 ∧
    (st.quota = 100 * st.searches + st.detailIds →
      st2.quota = 100 * st2.searches + st2.detailIds) := by
  unfold searchStep at h
  split at h
  · simp at h
  · split at h
    · simp at h
    · split at h
      · simp at h
      · split at h
        · simp at h
        · split at h
          · injection h with h2
            subst h2
            refine ⟨rfl, rfl, ?_⟩
            intro hinv
            simp
            omega
          · simp at h

theorem searchStep_stop_spec (prov : Provider) (f : Filters) (excluded : List String)
    (desired : Nat) (st st2 : LoopState)
    (h : searchStep prov f excluded desired st = StepRes.done st2 ∨
         searchStep prov f excluded desired st = StepRes.fail st2) :
    st2.searches ≤ st.searches + 1 ∧
    (st.quota = 100 * st.searches + st.detailIds →
      st2.quota = 100 * st2.searches + st2.detailIds) := by
  unfold searchStep at h
  rcases h with h | h
  · split at h
    · simp at h
    · split at h
      · injection h with h2
        subst h2
        refine ⟨by simp, ?_⟩
        intro hinv
        simp
        omega
      · split at h
        · simp at h
        · split at h
          · injection h with h2
            subst h2
            refine ⟨by simp, ?_⟩
            intro hinv
            simp
            omega
          · split at h
            · simp at h
            · injection h with h2
              subst h2
              refine ⟨by simp, ?_⟩
              intro hinv
              simp
              omega
  · split at h
    · injection h with h2
      subst h2
      exact ⟨Nat.le_succ _, fun hinv => hinv⟩
    · split at h
      · simp at h
      · split at h
        · injection h with h2
          subst h2
          refine ⟨by simp, ?_⟩
          intro hinv
          simp
          omega
        · split at h
          · simp at h
          · split at h
            · simp at h
            · simp at h

theorem runLoop_searches_le (prov : Provider) (f : Filters) (excluded : List String)
    (desired : Nat) (fuel : Nat) :
    ∀ st : LoopState, st.attempts ≤ maxAttempts →
      loopSearches (runLoop prov f excluded desired fuel st) ≤
        st.searches + (maxAttempts - st.attempts) := by
  induction fuel with
  | zero =>
    intro st _
    simp [runLoop, loopSearches, loopState]
  | succ fuel ih =>
    intro st hatt
    unfold runLoop
    by_cases hcond : (st.acc.length < desired && st.attempts < maxAttempts) = true
    · rw [if_pos hcond]
      have hlt : st.attempts < maxAttempts := by
        have := (Bool.and_eq_true _ _).mp hcond
        exact of_decide_eq_true this.2
      cases hstep : searchStep prov f excluded desired st with
      | done st2 =>
        have := searchStep_stop_spec prov f excluded desired st st2 (Or.inl hstep)
        show loopSearches (Except.ok st2) ≤ _
        simp [loopSearches, loopState]
        omega
      | fail st2 =>
        have := searchStep_stop_spec prov f excluded desired st st2 (Or.inr hstep)
        show loopSearches (Except.error st2) ≤ _
        simp [loopSearches, loopState]
        omega
      | next st2 =>
        have hspec := searchStep_next_spec prov f excluded desired st st2 hstep
        have hih := ih st2 (by omega)
        show loopSearches (runLoop prov f excluded desired fuel st2) ≤ _
        omega
    · rw [if_neg hcond]
      simp [loopSearches, loopState]

theorem runLoop_quota_inv (prov : Provider) (f : Filters) (excluded : List String)
    (desired : Nat) (fuel : Nat) :
    ∀ st : LoopState, st.quota = 100 * st.searches + st.detailIds →
      (loopState (runLoop prov f excluded desired fuel st)).quota =
        100 * (loopState (runLoop prov f excluded desired fuel st)).searches +
          (loopState (runLoop prov f excluded desired fuel st)).detailIds := by
  induction fuel with
  | zero =>
    intro st hinv
    simpa [runLoop, loopState] using hinv
  | succ fuel ih =>
    intro st hinv
    unfold runLoop
    by_cases hcond : (st.acc.length < desired && st.attempts < maxAttempts) = true
    · rw [if_pos hcond]
      cases hstep : searchStep prov f excluded desired st with
      | done st2 =>
        have := searchStep_stop_spec prov f excluded desired st st2 (Or.inl hstep)
        simpa [loopState] using this.2 hinv
      | fail st2 =>
        have := searchStep_stop_spec prov f excluded desired st st2 (Or.inr hstep)
        simpa [loopState] using this.2 hinv
      | next st2 =>
        have hspec := searchStep_next_spec prov f excluded desired st st2 hstep
        exact ih st2 (hspec.2.2 hinv)
    · rw [if_neg hcond]
      simpa [loopState] using hinv

/- ### Concrete instances shared by the aggregation theorems -/

/-- Fifty distinct channel ids (single ASCII letters from `A`). -/
def scenarioIds : List String :=
  (List.range 50).map (fun i => String.mk [Char.ofNat (65 + i)])

/-- A detail record that passes every filter of `scenarioFilters`. -/
def scenarioChannel (i : String) : Channel :=
  ⟨i, some 1, none, none, none, ""⟩

/-- A provider that always returns the same fifty ids with a continuation
token, and detail records that all pass the filters. -/
def scenarioProvider : Provider :=
  ⟨fun _ => Except.ok ⟨scenarioIds, some "T", 400⟩,
   fun ids => Except.ok (ids.map scenarioChannel)⟩

/-- Scenario filters: `desiredCount = 120`, first page, no subscriber or
language or email constraints. -/
def scenarioFilters : Filters :=
  ⟨"cooking", "", "", "", 0, false, 120, 1⟩

/-- A store with one fresh usable credential, an empty token cache and an
empty exclusion list. -/
def scenarioStore : StoreState :=
  ⟨[⟨"1", "A", 0, 100, true⟩], [], []⟩

/-- A provider whose details call fails (after a successful two-item
search), exercising the mid-loop error path. -/
def failingProvider : Provider :=
  ⟨fun _ => Except.ok ⟨["a", "b"], some "T", 7⟩, fun _ => Except.error ()⟩

/-- Minimal filters for the failure witness. -/
def witnessFilters : Filters :=
  ⟨"q", "", "", "", 0, false, 5, 1⟩

/-- Minimal store for the failure witness. -/
def witnessStore : StoreState :=
  ⟨[⟨"1", "A", 0, 100, true⟩], [], []⟩

/- ### Claim theorems: search aggregation -/

theorem searchChannels_pageTokens_cases (ptDay : Nat → Nat) (now : Nat)
    (prov : Provider) (f : Filters) (st : StoreState) :
    (searchChannels ptDay now prov f st).2.pageTokens = st.pageTokens ∨
    (searchChannels ptDay now prov f st).2.pageTokens =
      cleanupPageTokens now st.pageTokens := by
  unfold searchChannels
  cases hkey : getValidApiKey ptDay now st.keys with
  | error e => left; rfl
  | ok apiKey =>
    by_cases hpage : f.page > 1
    · right
      simp only [hpage, if_true]
      cases hrun : runLoop prov f st.excluded (desiredCount f) (maxAttempts + 1)
          (initLoopState (getPageToken now st.pageTokens (generateSearchKey f) f.page).1) with
      | error lst => rfl
      | ok lst => rfl
    · left
      simp only [hpage, if_false]
      cases hrun : runLoop prov f st.excluded (desiredCount f) (maxAttempts + 1)
          (initLoopState none) with
      | error lst => rfl
      | ok lst => rfl

set_option maxRecDepth 8000 in
/-- Counterexample to C3 as stated: with overlapping provider pages the
aggregated result of a single `searchChannels` call contains repeated
channel ids — the accumulator is not unique by id. -/
theorem searchChannels_duplicate_ids :
    ¬ (resultIds ((searchChannels (fun t => t / 86400000) 200 scenarioProvider
        { scenarioFilters with maxResults := 60 } scenarioStore).1)).Nodup := by
  decide

/-- Claim C3 (amended): within a single `searchChannels` call, every detail
record that passes the filter pipeline is appended to the accumulator in
provider order with no check against ids already present; a record already
in the accumulator that reappears on a later page and passes the filters is
appended again, so aggregating two overlapping pages yields its id at least
twice. -/
theorem searchStep_appends_all_passing (prov : Provider) (f : Filters)
    (excluded : List String) (desired : Nat) (st : LoopState)
    (page : SearchPage) (chans : List Channel) (c : Channel)
    (hs : prov.search st.tok = Except.ok page)
    (hne : page.items.isEmpty = false)
    (hd : prov.details page.items = Except.ok chans)
    (hcne : chans.isEmpty = false) :
    stepAcc (searchStep prov f excluded desired st) =
      st.acc ++ chans.filter (passesFilters f excluded) ∧
    (c ∈ st.acc → c ∈ chans → passesFilters f excluded c = true →
      2 ≤ (stepAcc (searchStep prov f excluded desired st)).count c) := by
  have hacc : stepAcc (searchStep prov f excluded desired st) =
      st.acc ++ chans.filter (passesFilters f excluded) := by
    unfold searchStep
    simp only [hs, hd]
    rw [if_neg (by simp [hne])]
    rw [if_neg (by simp [hcne])]
    split
    · simp [stepAcc]
    · simp [stepAcc]
  refine ⟨hacc, ?_⟩
  intro hc hcin hpass
  rw [hacc, List.count_append]
  have h1 : 0 < st.acc.count c := List.count_pos_iff.mpr hc
  have h2 : 0 < (chans.filter (passesFilters f excluded)).count c :=
    List.count_pos_iff.mpr (List.mem_filter.mpr ⟨hcin, hpass⟩)
  omega

/-- Witness for the amended C3: a record already accumulated reappears on
the next page, passes the filters, and is counted twice. -/
theorem searchStep_appends_all_passing_witness :
    2 ≤ (stepAcc (searchStep
        ⟨fun _ => Except.ok ⟨["x"], none, 1⟩,
         fun _ => Except.ok [⟨"x", some 1, none, none, none, ""⟩]⟩
        ⟨"q", "", "", "", 0, false, 10, 1⟩ [] 10
        ⟨[⟨"x", some 1, none, none, none, ""⟩], none, 0, 0, 0, 0, 0⟩)).count
      ⟨"x", some 1, none, none, none, ""⟩ := by
  exact (searchStep_appends_all_passing
    ⟨fun _ => Except.ok ⟨["x"], none, 1⟩,
     fun _ => Except.ok [⟨"x", some 1, none, none, none, ""⟩]⟩
    ⟨"q", "", "", "", 0, false, 10, 1⟩ [] 10
    ⟨[⟨"x", some 1, none, none, none, ""⟩], none, 0, 0, 0, 0, 0⟩
    ⟨["x"], none, 1⟩ [⟨"x", some 1, none, none, none, ""⟩]
    ⟨"x", some 1, none, none, none, ""⟩
    rfl rfl rfl rfl).2 (by decide) (by decide) (by decide)

set_option maxRecDepth 8000 in
/-- Claim C4: `searchChannels` never writes to the page-token cache — the
resulting cache holds no entry that was not already stored (the only cache
interaction is the read-side housekeeping of `getPageToken`), even though
the source imports `storePageToken`; concretely, the scenario call finishes
with the provider having supplied a continuation token (`hasMore = true`)
yet the cache stays empty and the follow-up page-2 lookup misses. -/
theorem searchChannels_never_stores_token :
    (∀ (ptDay : Nat → Nat) (now : Nat) (prov : Provider) (f : Filters)
        (st : StoreState) (e : PageTokenEntry),
      e ∈ (searchChannels ptDay now prov f st).2.pageTokens →
        e ∈ st.pageTokens) ∧
    (searchChannels (fun t => t / 86400000) 200 scenarioProvider scenarioFilters
        scenarioStore).2.pageTokens = [] ∧
    (okResult ((searchChannels (fun t => t / 86400000) 200 scenarioProvider
        scenarioFilters scenarioStore).1)).map (fun r => r.hasMore) = some true ∧
    (getPageToken 200 [] (generateSearchKey scenarioFilters) 2).1 = none := by
  refine ⟨?_, by decide, by decide, rfl⟩
  intro ptDay now prov f st e hmem
  rcases searchChannels_pageTokens_cases ptDay now prov f st with hcase | hcase
  · rw [hcase] at hmem
    exact hmem
  · rw [hcase] at hmem
    exact (List.mem_filter.mp hmem).1

set_option maxRecDepth 8000 in
/-- Witness for C4: a pre-existing cache entry surviving a call was already
present before the call. -/
theorem searchChannels_never_stores_token_witness :
    (⟨"K", 2, "T", 100⟩ : PageTokenEntry) ∈
      ([⟨"K", 2, "T", 100⟩] : List PageTokenEntry) := by
  refine searchChannels_never_stores_token.1 (fun t => t / 86400000) 200
    failingProvider witnessFilters ⟨[⟨"1", "A", 0, 100, true⟩], [⟨"K", 2, "T", 100⟩], []⟩
    ⟨"K", 2, "T", 100⟩ ?_
  decide

/-- Claim C5: when a provider call fails mid-loop, `searchChannels` records
the quota consumed by the completed sub-steps against the selected key
(passing the loop's running total to `updateQuotaUsage`) and only then
propagates the error; the recorded figure is exactly 100 units per
completed search call plus one unit per id of each completed details
call — consumed quota is never silently dropped. -/
theorem searchChannels_records_quota_on_error
    (ptDay : Nat → Nat) (now : Nat) (prov : Provider) (f : Filters) (st : StoreState)
    (apiKey : String) (lst : LoopState)
    (hkey : getValidApiKey ptDay now st.keys = Except.ok apiKey)
    (hrun : runLoop prov f st.excluded (desiredCount f) (maxAttempts + 1)
        (initLoopState (if f.page > 1 then
            getPageToken now st.pageTokens (generateSearchKey f) f.page
          else (none, st.pageTokens)).1) = Except.error lst) :
    searchChannels ptDay now prov f st =
      (Except.error SearchErr.providerError,
       { keys := updateQuotaUsage ptDay now (getApiKeysUpdate ptDay now st.keys)
           apiKey lst.quota,
         pageTokens := (if f.page > 1 then
             getPageToken now st.pageTokens (generateSearchKey f) f.page
           else (none, st.pageTokens)).2,
         excluded := st.excluded }) ∧
    lst.quota = 100 * lst.searches + lst.detailIds := by
  constructor
  · unfold searchChannels
    rw [hkey]
    simp only [hrun]
  · have hinv := runLoop_quota_inv prov f st.excluded (desiredCount f) (maxAttempts + 1)
      (initLoopState (if f.page > 1 then
          getPageToken now st.pageTokens (generateSearchKey f) f.page
        else (none, st.pageTokens)).1) (by simp [initLoopState])
    rw [hrun] at hinv
    simpa [loopState] using hinv

/-- Witness for C5: the details call fails after a successful two-item
search; the 100 units of the completed search are recorded on the
credential before the error is surfaced. -/
theorem searchChannels_records_quota_on_error_witness :
    searchChannels (fun t => t / 86400000) 200 failingProvider witnessFilters
        witnessStore =
      (Except.error SearchErr.providerError,
       ⟨[⟨"1", "A", 100, 200, true⟩], [], []⟩) := by
  have h := searchChannels_records_quota_on_error (fun t => t / 86400000) 200
    failingProvider witnessFilters witnessStore "A" ⟨[], none, 100, 7, 1, 0, 0⟩
    (by rfl) (by rfl)
  rw [h.1]
  exact congrArg (fun s => (Except.error SearchErr.providerError, s)) (by decide)

set_option maxRecDepth 8000 in
/-- Claim C6: starting from a fresh loop state, the aggregation loop issues
at most `maxAttempts = 3` search-page calls whatever the provider does; and
in the scenario where every page yields 50 passing candidates plus a next
token with `desiredCount = 120`, it stops after exactly 3 iterations with
150 accumulated candidates, the result is truncated to 120 channels, and
`hasMore = true` (with `quotaUsed = 3 * 100 + 150 = 450` certifying the
three iterations). -/
theorem searchChannels_three_attempts :
    (∀ (prov : Provider) (f : Filters) (excluded : List String) (desired : Nat)
        (tok : Option String),
      loopSearches (runLoop prov f excluded desired (maxAttempts + 1)
        (initLoopState tok)) ≤ maxAttempts) ∧
    loopSearches (runLoop scenarioProvider scenarioFilters [] 120 (maxAttempts + 1)
        (initLoopState none)) = 3 ∧
    (loopState (runLoop scenarioProvider scenarioFilters [] 120 (maxAttempts + 1)
        (initLoopState none))).acc.length = 150 ∧
    (okResult ((searchChannels (fun t => t / 86400000) 200 scenarioProvider
        scenarioFilters scenarioStore).1)).map
      (fun r => (r.channels.length, r.hasMore, r.quotaUsed)) =
      some (120, true, 450) := by
  refine ⟨?_, by decide, by decide, by decide⟩
  intro prov f excluded desired tok
  have h := runLoop_searches_le prov f excluded desired (maxAttempts + 1)
    (initLoopState tok) (by simp [initLoopState])
  simpa [initLoopState] using h

end Yt
